import Mathlib

set_option maxRecDepth 40000

/-!
Verification of the tydi hardware-interface compiler.

This file gives a shallow embedding, in Lean 4, of the parts of the `tydi`
crate relevant to the physical-stream bit-count model (`src/physical.rs`),
the VHDL back-end declaration and directional-split transform
(`src/generator/vhdl/mod.rs`, `src/generator/vhdl/impls.rs`) and the
architecture port-mapping statements
(`src/stdlib/common/architecture/statement/mod.rs`), together with theorems
settling the specified behavioral properties.

Rust machine integers (`u32` for `NonNegative`, `NonZeroU32` for `Positive`)
are modelled as `Nat` (resp. subtypes of `Nat`); none of the verified
properties exercises wrap-around arithmetic. Fallible Rust functions
returning `Result<T>` are modelled as `Except Error T`.
-/

namespace Tydi

/-- The crate error enum. Modelled from the spec: `src/error.rs` is not part
of the sources under verification; §7 of the specification gives the error
taxonomy (`InvalidArgument`, `UnexpectedDuplicate`, `BackEndError`,
`InvalidTarget`). The extra `Panic` constructor is not a source variant: it
marks execution of a Rust `unreachable` panic in this pure embedding. -/
inductive Error where
  | InvalidArgument (msg : String)
  | UnexpectedDuplicate
  | BackEndError (msg : String)
  | InvalidTarget (msg : String)
  | Panic (msg : String)
deriving Repr, DecidableEq

/-- `pub type NonNegative = u32;` (`src/lib.rs`), modelled as `Nat`. -/
abbrev NonNegative := Nat

/-- `pub type Positive = std::num::NonZeroU32;` (`src/lib.rs`). -/
def Positive := {n : Nat // 0 < n}

instance : DecidableEq Positive := fun a b =>
  decidable_of_iff (a.val = b.val) Subtype.ext_iff.symm

/-- `NonZeroU32::new`: `Some` exactly when the value is non-zero. -/
def Positive.new (n : Nat) : Option Positive :=
  if h : 0 < n then some ⟨n, h⟩ else none

/-- `NonZeroU32::get`. -/
def Positive.get (p : Positive) : Nat := p.val

/-- `pub type BitCount = Positive;` (`src/physical.rs`). -/
abbrev BitCount := Positive

/-- Validity of a character for `Name` (`is_ascii_alphanumeric` or `_`,
`src/lib.rs`). -/
def nameCharOk (c : Char) : Bool := c.isAlphanum || c == '_'

/-- Whether a character list contains two consecutive underscores
(`name.contains("__")` in `Name::try_new`, `src/lib.rs`). -/
def hasDoubleUnderscore : List Char → Bool
  | '_' :: '_' :: _ => true
  | _ :: rest => hasDoubleUnderscore rest
  | [] => false

/-- `Name` (`src/lib.rs`): a type-safe wrapper for valid names. We keep the
underlying `String` and enforce validity through `Name.tryNew`. -/
abbrev Name := String

/-- `Name::try_new` (`src/lib.rs`). -/
def Name.tryNew (s : String) : Except Error Name :=
  match h : s.data with
  | [] => .error (.InvalidArgument "name cannot be empty")
  | c :: rest =>
    if c.isDigit then
      .error (.InvalidArgument "name cannot start with a digit")
    else if c == '_' || (c :: rest).getLast (by simp) == '_' then
      .error (.InvalidArgument "name cannot start or end with an underscore")
    else if hasDoubleUnderscore (c :: rest) then
      .error (.InvalidArgument "name cannot contain two or more consecutive underscores")
    else if !(c :: rest).all nameCharOk then
      .error (.InvalidArgument ("name must consist of letters, numbers, and/or underscores " ++ s))
    else
      .ok s

/-- `PathName` (`src/lib.rs`): a sequence of valid names. -/
abbrev PathName := List Name

/-- `impl TryFrom<&str> for PathName` (`src/lib.rs`): validate as a single
`Name` and wrap it into a one-element path. -/
def PathName.tryFromString (s : String) : Except Error PathName :=
  (Name.tryNew s).map (fun n => [n])

/-- Interface complexity level (`Complexity`, `src/physical.rs`). The level
vector is non-empty: `Complexity::new` rejects empty vectors and no public
constructor produces one. -/
structure Complexity where
  level : List NonNegative
  level_ne : level ≠ []

/-- `Complexity::new` (`src/physical.rs`): errors on an empty level vector. -/
def Complexity.new (level : List NonNegative) : Except Error Complexity :=
  if h : level = [] then
    .error (.InvalidArgument "complexity level cannot be empty")
  else
    .ok ⟨level, h⟩

/-- `Complexity::new_major` (`src/physical.rs`). -/
def Complexity.new_major (major : NonNegative) : Complexity :=
  ⟨[major], by simp⟩

/-- `Complexity::major` (`src/physical.rs`): `self.level[0]`. -/
def Complexity.major (c : Complexity) : NonNegative :=
  c.level.head c.level_ne

/-- Component of the level vector at `idx`, with missing entries read as `0`
(`self.level.get(idx).unwrap_or(&0)` in the `PartialEq`/`Ord` impls,
`src/physical.rs`). -/
def padGet (l : List NonNegative) (idx : Nat) : NonNegative := l.getD idx 0

/-- `impl PartialEq for Complexity` (`src/physical.rs`): compare the two
level vectors componentwise over the longer length, padding with zeros. -/
def Complexity.eq (a b : Complexity) : Bool :=
  (List.range (max a.level.length b.level.length)).all
    (fun idx => padGet a.level idx == padGet b.level idx)

/-- The fold step of `impl Ord for Complexity` (`src/physical.rs`): keep the
first ordering decided by a differing padded component. -/
def cmpStep (ord : Option Ordering) (p : NonNegative × NonNegative) : Option Ordering :=
  match ord with
  | some o => some o
  | none => if p.1 = p.2 then none else some (compare p.1 p.2)

/-- `impl Ord for Complexity` (`src/physical.rs`): fold over the padded
component pairs, deciding at the first difference, `Equal` otherwise. -/
def Complexity.cmp (a b : Complexity) : Ordering :=
  (((List.range (max a.level.length b.level.length)).map
      (fun idx => (padGet a.level idx, padGet b.level idx))).foldl
    cmpStep none).getD Ordering.eq

/-- `Fields` (`src/physical.rs`): an insertion-ordered map from path names
to bit counts (`IndexMap<PathName, BitCount>`), modelled as an association
list without duplicate keys. -/
abbrev Fields := List (PathName × BitCount)

/-- One insertion step of `Fields::new`: `IndexMap::insert` returns the old
value when the key is present, upon which `Fields::new` errors with
`UnexpectedDuplicate` (`src/physical.rs`). -/
def Fields.insert (m : Fields) (p : PathName) (b : BitCount) : Except Error Fields :=
  if (m.map Prod.fst).contains p then .error .UnexpectedDuplicate
  else .ok (m ++ [(p, b)])

/-- `Fields::new` (`src/physical.rs`). -/
def Fields.new (l : List (PathName × BitCount)) : Except Error Fields :=
  l.foldlM (fun m pb => Fields.insert m pb.1 pb.2) ([] : Fields)

/-- The bit counts stored in the fields, in order (`Fields::values`). -/
def Fields.values (m : Fields) : List BitCount := m.map Prod.snd

/-- `PhysicalStream` (`src/physical.rs`). -/
structure PhysicalStream where
  element_fields : Fields
  element_lanes : Positive
  dimensionality : NonNegative
  complexity : Complexity
  user : Fields

/-- The name/width validation applied to each field pair by
`PhysicalStream::try_new` (`src/physical.rs`): the name must convert to a
`PathName` and the bit count must be non-zero (the source reuses the
message "element lanes cannot be zero" for zero-width fields). -/
def tryNewField (p : String × Nat) : Except Error (PathName × BitCount) :=
  match PathName.tryFromString p.1, Positive.new p.2 with
  | .ok path_name, some bit_count => .ok (path_name, bit_count)
  | .error e, _ => .error e
  | _, none => .error (.InvalidArgument "element lanes cannot be zero")

/-- `PhysicalStream::try_new` (`src/physical.rs`). -/
def PhysicalStream.try_new (element_fields : List (String × Nat))
    (element_lanes : Nat) (dimensionality : Nat) (complexity : Complexity)
    (user : List (String × Nat)) : Except Error PhysicalStream := do
  let efs ← element_fields.mapM tryNewField
  let efs ← Fields.new efs
  let lanes ← match Positive.new element_lanes with
    | some l => Except.ok l
    | none => Except.error (Error.InvalidArgument "element lanes cannot be zero")
  let us ← user.mapM tryNewField
  let us ← Fields.new us
  .ok ⟨efs, lanes, dimensionality, complexity, us⟩

/-- Fuel-driven binary ceiling logarithm: with fuel at least `n`, computes
`⌈log2 n⌉` by structural recursion (so that it reduces inside the kernel). -/
def clog2Aux : Nat → Nat → Nat
  | _, 0 => 0
  | _, 1 => 0
  | 0, _ => 0
  | fuel + 1, n => clog2Aux fuel ((n + 1) / 2) + 1

/-- Modelled from the spec: `util::log2_ceil` lives in `src/util.rs`, which
is not among the sources under verification; §4.2 of the specification reads
the quantity as `⌈log2(lanes)⌉`. -/
def log2_ceil (v : Positive) : NonNegative := clog2Aux v.get v.get

/-- `PhysicalStream::data_bit_count` (`src/physical.rs`). -/
def PhysicalStream.data_bit_count (p : PhysicalStream) : NonNegative :=
  (p.element_fields.values.map Positive.get).sum * p.element_lanes.get

/-- `PhysicalStream::last_bit_count` (`src/physical.rs`). -/
def PhysicalStream.last_bit_count (p : PhysicalStream) : NonNegative :=
  p.dimensionality

/-- `PhysicalStream::stai_bit_count` (`src/physical.rs`). -/
def PhysicalStream.stai_bit_count (p : PhysicalStream) : NonNegative :=
  if p.complexity.major ≥ 6 ∧ p.element_lanes.get > 1 then
    log2_ceil p.element_lanes
  else 0

/-- `PhysicalStream::endi_bit_count` (`src/physical.rs`). -/
def PhysicalStream.endi_bit_count (p : PhysicalStream) : NonNegative :=
  if (p.complexity.major ≥ 5 ∨ p.dimensionality ≥ 1) ∧ p.element_lanes.get > 1 then
    log2_ceil p.element_lanes
  else 0

/-- `PhysicalStream::strb_bit_count` (`src/physical.rs`). -/
def PhysicalStream.strb_bit_count (p : PhysicalStream) : NonNegative :=
  if p.complexity.major ≥ 7 ∨ p.dimensionality ≥ 1 then
    p.element_lanes.get
  else 0

/-- `PhysicalStream::user_bit_count` (`src/physical.rs`). -/
def PhysicalStream.user_bit_count (p : PhysicalStream) : NonNegative :=
  (p.user.values.map Positive.get).sum

/-- `PhysicalStream::bit_count` (`src/physical.rs`). -/
def PhysicalStream.bit_count (p : PhysicalStream) : NonNegative :=
  p.data_bit_count + p.last_bit_count + p.stai_bit_count
    + p.endi_bit_count + p.strb_bit_count + p.user_bit_count

/-- `SignalList` (`src/physical.rs`). -/
structure SignalList where
  data : Option NonNegative
  last : Option NonNegative
  stai : Option NonNegative
  endi : Option NonNegative
  strb : Option NonNegative
  user : Option NonNegative
deriving Repr, DecidableEq

/-- The local closure `opt` of `PhysicalStream::signal_list`
(`src/physical.rs`): `None` for zero, `Some` otherwise. -/
def opt (x : NonNegative) : Option NonNegative :=
  if x = 0 then none else some x

/-- `PhysicalStream::signal_list` (`src/physical.rs`). -/
def PhysicalStream.signal_list (p : PhysicalStream) : SignalList :=
  { data := opt p.data_bit_count
    last := opt p.last_bit_count
    stai := opt p.stai_bit_count
    endi := opt p.endi_bit_count
    strb := opt p.strb_bit_count
    user := opt p.user_bit_count }

/-- `SignalList::opt_bit_count` (`src/physical.rs`). -/
def SignalList.opt_bit_count (s : SignalList) : Option NonNegative :=
  match s.data.getD 0 + s.last.getD 0 + s.stai.getD 0 + s.endi.getD 0
      + s.strb.getD 0 + s.user.getD 0 with
  | 0 => none
  | x => some x

/-- `SignalList::bit_count` (`src/physical.rs`). -/
def SignalList.bit_count (s : SignalList) : NonNegative :=
  s.opt_bit_count.getD 0

/-- `Origin` (`src/physical.rs`). -/
inductive Origin where
  | Source
  | Sink
deriving Repr, DecidableEq

/-- `Width` (`src/physical.rs`). -/
inductive Width where
  | Scalar
  | Vector (w : NonNegative)
deriving Repr, DecidableEq

/-- `Signal` (`src/physical.rs`). -/
structure Signal where
  name : String
  origin : Origin
  width : Width
deriving Repr, DecidableEq

/-- `Signal::opt_vec` (`src/physical.rs`). -/
def Signal.opt_vec (name : String) (origin : Origin) (width : Option NonNegative) :
    Option Signal :=
  width.map (fun w => { name := name, origin := origin, width := .Vector w })

/-- `SignalList::valid` (`src/physical.rs`). -/
def SignalList.valid (_ : SignalList) : Signal :=
  { name := "valid", origin := .Source, width := .Scalar }

/-- `SignalList::ready` (`src/physical.rs`). -/
def SignalList.ready (_ : SignalList) : Signal :=
  { name := "ready", origin := .Sink, width := .Scalar }

/-- `SignalList::data` signal accessor (`src/physical.rs`). -/
def SignalList.dataSignal (s : SignalList) : Option Signal :=
  Signal.opt_vec "data" .Source s.data

/-- `SignalList::last` signal accessor (`src/physical.rs`). -/
def SignalList.lastSignal (s : SignalList) : Option Signal :=
  Signal.opt_vec "last" .Source s.last

/-- `SignalList::stai` signal accessor (`src/physical.rs`). -/
def SignalList.staiSignal (s : SignalList) : Option Signal :=
  Signal.opt_vec "stai" .Source s.stai

/-- `SignalList::endi` signal accessor (`src/physical.rs`). -/
def SignalList.endiSignal (s : SignalList) : Option Signal :=
  Signal.opt_vec "endi" .Source s.endi

/-- `SignalList::strb` signal accessor (`src/physical.rs`). -/
def SignalList.strbSignal (s : SignalList) : Option Signal :=
  Signal.opt_vec "strb" .Source s.strb

/-- `SignalList::user` signal accessor (`src/physical.rs`). -/
def SignalList.userSignal (s : SignalList) : Option Signal :=
  Signal.opt_vec "user" .Source s.user

/-- `impl IntoIterator for &SignalList` (`src/physical.rs`): the candidate
signals in their fixed order, with absent ones filtered out. -/
def SignalList.toList (s : SignalList) : List Signal :=
  ([some s.valid, some s.ready, s.dataSignal, s.lastSignal, s.staiSignal,
    s.endiSignal, s.strbSignal, s.userSignal]).filterMap id

/-- `impl From<PhysicalStream> for SignalList` (`src/physical.rs`): defers
to `signal_list`. -/
def SignalList.fromStream (p : PhysicalStream) : SignalList :=
  p.signal_list

/-- A complexity level vector extended with `k` trailing zeros. -/
def Complexity.padZeros (c : Complexity) (k : Nat) : Complexity :=
  ⟨c.level ++ List.replicate k 0, by simp [c.level_ne]⟩

/-- First-difference lexicographic verdict on a list of component pairs:
the ordering of the first unequal pair, `Ordering.eq` if all pairs agree. -/
def lexFirst : List (Nat × Nat) → Ordering
  | [] => .eq
  | (i, j) :: rest => if i = j then lexFirst rest else compare i j

/-- The list of component pairs `(f 0, g 0), …, (f (N-1), g (N-1))`. -/
def pairList (f g : Nat → Nat) (N : Nat) : List (Nat × Nat) :=
  (List.range N).map (fun i => (f i, g i))

/-! ## Common representation and VHDL back end

The data model of the common hardware representation (`Type`, `Field`,
`Record`, `Array`, `Port`, `Component`, `Package`, declared in
`src/generator/common/mod.rs`) is not among the sources under verification;
it is modelled here from §3 of the specification, with accessor behavior
matching its uses in `src/generator/vhdl/mod.rs` and
`src/generator/vhdl/impls.rs`. The operations on it (`Split`, `Declare`,
`DeclareType`, `Analyze`, `VHDLIdentifier`) are embedded directly from
those two source files. -/

/-- Modelled from the spec: the `cat!` macro of the missing `src/util.rs`
joins its non-empty arguments with single underscores (behavior pinned by
the back-end unit tests in src: `cat!(id, "type") = "id_type"`,
`cat!(id, "") = id`, `cat!(id) = id`). -/
def cat (parts : List String) : String :=
  parts.foldl
    (fun acc s =>
      if s.isEmpty then acc
      else if acc.isEmpty then s
      else acc ++ "_" ++ s) ""

/-- `Mode` of a port (modelled from the spec §3: `In` or `Out`). -/
inductive Mode where
  | In
  | Out
deriving Repr, DecidableEq

/-- Modelled from the spec: the `Reversed` impl for `Mode` (missing
`src/generator/common/mod.rs`), §4.4: `Sink` signals invert the mode
(`In` ↔ `Out`); pinned by the `split_port` unit test in
`src/generator/vhdl/mod.rs` (an `Out` port's `up` half is `In`). -/
def Mode.reversed : Mode → Mode
  | .In => .Out
  | .Out => .In

mutual
/-- Modelled from the spec §3: the common-representation `Type` (the source
enum is named `Type`, which Lean reserves): closed variants `Bit`,
`Natural`, `Positive`, `BitVec{width}`, `Record`, `Union`, `Array`. -/
inductive Typ where
  | Bit
  | Natural
  | Positive
  | BitVec (width : Nat)
  | Record (rec : Record)
  | Union (rec : Record)
  | Array (arr : Array)

/-- Modelled from the spec §3: `Field` (name, type, reversed flag,
optional doc). -/
inductive Field where
  | mk (name : String) (typ : Typ) (reversed : Bool) (doc : Option String)

/-- Modelled from the spec §3: a record/union body — an identifier and an
ordered field list. -/
inductive Record where
  | mk (identifier : String) (fields : List Field)

/-- Modelled from the spec §3: `Array{element type, length}` with an
identifier. -/
inductive Array where
  | mk (identifier : String) (typ : Typ) (width : Nat)
end

/-- `Field` name accessor (the `Identify` impl returns the field name). -/
def Field.identifier : Field → String
  | .mk n _ _ _ => n

/-- `Field` type accessor. -/
def Field.typ : Field → Typ
  | .mk _ t _ _ => t

/-- `Field` reversed-flag accessor. -/
def Field.is_reversed : Field → Bool
  | .mk _ _ r _ => r

/-- `Field` doc accessor. -/
def Field.doc : Field → Option String
  | .mk _ _ _ d => d

/-- `Record` identifier accessor. -/
def Record.identifier : Record → String
  | .mk i _ => i

/-- `Record` field-list accessor. -/
def Record.fields : Record → List Field
  | .mk _ fs => fs

/-- `Record::is_empty`: whether the record has no fields. -/
def Record.is_empty (r : Record) : Bool := r.fields.isEmpty

/-- `Array` identifier accessor. -/
def Array.identifier : Array → String
  | .mk i _ _ => i

/-- `Array` element-type accessor. -/
def Array.typ : Array → Typ
  | .mk _ t _ => t

/-- `Array` width accessor. -/
def Array.width : Array → Nat
  | .mk _ _ w => w

mutual
/-- Structural equality on `Typ` (the Rust data model derives
`PartialEq`, which compares all fields). -/
def Typ.beq : Typ → Typ → Bool
  | .Bit, o => match o with | .Bit => true | _ => false
  | .Natural, o => match o with | .Natural => true | _ => false
  | .Positive, o => match o with | .Positive => true | _ => false
  | .BitVec w1, o => match o with | .BitVec w2 => w1 == w2 | _ => false
  | .Record r1, o => match o with | .Record r2 => r1.beq r2 | _ => false
  | .Union r1, o => match o with | .Union r2 => r1.beq r2 | _ => false
  | .Array a1, o => match o with | .Array a2 => a1.beq a2 | _ => false
termination_by structural t _ => t

/-- Structural equality on `Field`. -/
def Field.beq : Field → Field → Bool
  | .mk n1 t1 r1 d1, o =>
    match o with
    | .mk n2 t2 r2 d2 => n1 == n2 && t1.beq t2 && r1 == r2 && d1 == d2
termination_by structural f _ => f

/-- Structural equality on `Record`. -/
def Record.beq : Record → Record → Bool
  | .mk i1 f1, o => match o with | .mk i2 f2 => i1 == i2 && fieldsBeq f1 f2
termination_by structural r _ => r

/-- Structural equality on field lists. -/
def fieldsBeq : List Field → List Field → Bool
  | [], o => o.isEmpty
  | f :: fs, o => match o with | g :: gs => f.beq g && fieldsBeq fs gs | [] => false
termination_by structural l _ => l

/-- Structural equality on `Array`. -/
def Array.beq : Array → Array → Bool
  | .mk i1 t1 w1, o =>
    match o with | .mk i2 t2 w2 => i1 == i2 && t1.beq t2 && w1 == w2
termination_by structural a _ => a
end

mutual
/-- Modelled from the spec §3: a type "has reversed" if any reachable
field below it is marked reversed (`has_reversed` of the missing
`src/generator/common/mod.rs`). -/
def Typ.has_reversed : Typ → Bool
  | .Record r => r.has_reversed
  | .Union r => r.has_reversed
  | .Array (.mk _ t _) => t.has_reversed
  | _ => false

/-- Modelled from the spec §3: a field "has reversed" if it is marked
reversed or its type has reversed fields. -/
def Field.has_reversed : Field → Bool
  | .mk _ t r _ => r || t.has_reversed

/-- Modelled from the spec §3: a record "has reversed" if any of its
fields does. -/
def Record.has_reversed : Record → Bool
  | .mk _ fs => fieldsHaveReversed fs

/-- Any field of the list has reversed parts. -/
def fieldsHaveReversed : List Field → Bool
  | [] => false
  | f :: rest => f.has_reversed || fieldsHaveReversed rest
end

mutual
/-- `impl Split for Type` (`src/generator/vhdl/mod.rs`): splits records and
unions; every other variant — including `Array` — falls into the catch-all
arm `(Some(self.clone()), None)`. -/
def Typ.split : Typ → Option Typ × Option Typ
  | .Record rec =>
    let (down_rec, up_rec) := rec.split
    (down_rec.map .Record, up_rec.map .Record)
  | .Union rec =>
    let (down_rec, up_rec) := rec.split
    (down_rec.map .Union, up_rec.map .Union)
  | t => (some t, none)

/-- `impl Split for Field` (`src/generator/vhdl/mod.rs`): split the inner
type, rebuild both halves with the reversed flag cleared and the doc
dropped, and swap the halves when the field itself is reversed. -/
def Field.split : Field → Option Field × Option Field
  | .mk name typ reversed _ =>
    let (down_type, up_type) := typ.split
    let result := (down_type.map (fun t => Field.mk name t false none),
                   up_type.map (fun t => Field.mk name t false none))
    if reversed then (result.2, result.1) else result

/-- `impl Split for Record` (`src/generator/vhdl/mod.rs`): distribute the
split field halves into a down record and an up record, dropping a half
that ends up empty. -/
def Record.split : Record → Option Record × Option Record
  | .mk id fields =>
    let (down_fields, up_fields) := splitFields fields
    ((if down_fields.isEmpty then none else some (.mk id down_fields)),
     (if up_fields.isEmpty then none else some (.mk id up_fields)))

/-- The field loop of `impl Split for Record`: insert each present half in
iteration order. -/
def splitFields : List Field → List Field × List Field
  | [] => ([], [])
  | f :: rest =>
    let (down_field, up_field) := f.split
    let (downs, ups) := splitFields rest
    (down_field.toList ++ downs, up_field.toList ++ ups)
end

/-- `impl Split for Array` (`src/generator/vhdl/mod.rs`): split the element
type and rebuild an array around each present half. -/
def Array.split : Array → Option Array × Option Array
  | .mk id t w =>
    let (dn, up) := t.split
    (dn.map (fun df => Array.mk id df w), up.map (fun uf => Array.mk id uf w))

mutual
/-- Modelled from the spec §4.5: `append_name_nested` of the missing
`src/generator/common/mod.rs` appends the suffix to this composite's
identifier and to every nested composite identifier (behavior pinned by
the `record_type_decl`/`package_decl` unit tests in
`src/generator/vhdl/impls.rs`, where root record `rec` with nested record
`rec_a` declares as `rec_dn_type` and `rec_a_dn_type`). -/
def Typ.append_name_nested : Typ → String → Typ
  | .Record rec, suffix => .Record (rec.append_name_nested suffix)
  | .Union rec, suffix => .Union (rec.append_name_nested suffix)
  | .Array arr, suffix => .Array (arr.append_name_nested suffix)
  | t, _ => t

/-- `append_name_nested` on a field: rename the nested composites of its
type. -/
def Field.append_name_nested : Field → String → Field
  | .mk n t r d, suffix => .mk n (t.append_name_nested suffix) r d

/-- `append_name_nested` on a record. -/
def Record.append_name_nested : Record → String → Record
  | .mk id fields, suffix => .mk (cat [id, suffix]) (fieldsAppendName fields suffix)

/-- `append_name_nested` mapped over a field list. -/
def fieldsAppendName : List Field → String → List Field
  | [], _ => []
  | f :: rest, suffix => f.append_name_nested suffix :: fieldsAppendName rest suffix

/-- `append_name_nested` on an array. -/
def Array.append_name_nested : Array → String → Array
  | .mk id t w, suffix => .mk (cat [id, suffix]) (t.append_name_nested suffix) w
end

/-- `Port` (modelled from the spec §3: name, mode, type, optional doc;
`Port::new` sets no doc, `Port::new_documented` sets one). -/
structure Port where
  identifier : String
  mode : Mode
  typ : Typ
  doc : Option String

/-- Modelled from the spec §3: a port "has reversed" if its type does. -/
def Port.has_reversed (p : Port) : Bool := p.typ.has_reversed

/-- `impl Split for Port` (`src/generator/vhdl/mod.rs`): split the port
type; the down half keeps the mode and gets a `dn`-suffixed name, the up
half reverses the mode and gets an `up`-suffixed name; record/union types
have the suffix appended to their nested names, all other types are kept
as-is. -/
def Port.split (p : Port) : Option Port × Option Port :=
  let (type_down, type_up) := p.typ.split
  (type_down.map (fun t =>
    Port.mk (cat [p.identifier, "dn"]) p.mode
      (match t with
        | .Record r => .Record (r.append_name_nested "dn")
        | .Union r => .Union (r.append_name_nested "dn")
        | t => t) none),
   type_up.map (fun t =>
    Port.mk (cat [p.identifier, "up"]) p.mode.reversed
      (match t with
        | .Record r => .Record (r.append_name_nested "up")
        | .Union r => .Union (r.append_name_nested "up")
        | t => t) none))

/-- `impl VHDLIdentifier for Mode` (`src/generator/vhdl/impls.rs`). -/
def Mode.vhdl_identifier : Mode → Except Error String
  | .In => .ok "in"
  | .Out => .ok "out"

/-- `impl VHDLIdentifier for Record` (`src/generator/vhdl/impls.rs`):
`cat!(identifier, "type")`. -/
def Record.vhdl_identifier (r : Record) : Except Error String :=
  .ok (cat [r.identifier, "type"])

/-- `impl VHDLIdentifier for Array` (`src/generator/vhdl/impls.rs`):
`cat!(identifier, "type")`. -/
def Array.vhdl_identifier (a : Array) : Except Error String :=
  .ok (cat [a.identifier, "type"])

/-- `impl VHDLIdentifier for Type` (`src/generator/vhdl/impls.rs`):
records/arrays use their type-definition names; any other variant is used
directly via `self.declare(true)`. The source delegates the non-composite
arms to `DeclareType for Type`; those four non-recursive arms are inlined
here verbatim (see `Typ.declare`, and the agreement lemma
`vhdl_identifier_primitive_eq_declare` below), which breaks the otherwise
size-neutral call cycle between the two functions. -/
def Typ.vhdl_identifier : Typ → Except Error String
  | .Record rec => rec.vhdl_identifier
  | .Union rec => rec.vhdl_identifier
  | .Array arr => arr.vhdl_identifier
  | .Bit => .ok "std_logic"
  | .Natural => .ok "natural"
  | .Positive => .ok "positive"
  | .BitVec width =>
    .ok ("std_logic_vector(" ++ toString ((if width = 0 then 1 else width) - 1)
      ++ " downto 0)")

mutual
/-- Node count of a type (used to pick a sufficient recursion fuel for the
declare functions below). -/
def Typ.size : Typ → Nat
  | .Record (.mk _ fs) => 1 + fieldsSize fs
  | .Union (.mk _ fs) => 1 + fieldsSize fs
  | .Array (.mk _ t _) => 1 + t.size
  | _ => 1

/-- Combined node count of a field list. -/
def fieldsSize : List Field → Nat
  | [] => 0
  | .mk _ t _ _ :: rest => 1 + t.size + fieldsSize rest
end

/-- Node count of a record. -/
def Record.size (r : Record) : Nat := 1 + fieldsSize r.fields

/-- Node count of an array. -/
def Array.size (a : Array) : Nat := 1 + a.typ.size

/-!
The `declare_rec`/`declare_arr`/`DeclareType` recursion of
`src/generator/vhdl/impls.rs` is not structural: a record or array with
reversed fields is declared by recursing into its *split halves*. Each such
half drops at least one leaf (both halves are non-empty in the recursive
arm), so the source recursion terminates, with call-path depth bounded by
`size²`: at most `size` structural steps between split steps and at most
`size` split steps. The embedding makes this explicit with a fuel
parameter that decreases on every call; the public wrappers below supply
`(size + 1)²` fuel, which the bound above shows is never exhausted, keeping
the definitions kernel-computable.
-/

mutual
/-- `declare_rec` (`src/generator/vhdl/impls.rs`): emit
`type <id>_type is record` with one line per field, first emitting the
declarations of nested record/union/array field types into `children`. -/
def declareRecF : Nat → Record → Except Error String
  | 0, _ => .error (.Panic "recursion fuel exhausted")
  | fuel + 1, .mk id fields => do
    let rid ← Record.vhdl_identifier (.mk id fields)
    let (children, this) ← declareRecLoopF fuel fields ""
      ("type " ++ cat [rid] ++ " is record\n")
    let this := this ++ "end record;"
    .ok (if children.isEmpty then this else children ++ this)

/-- The field loop of `declare_rec`: accumulate nested child declarations
and this record's field lines. -/
def declareRecLoopF : Nat → List Field → String → String →
    Except Error (String × String)
  | 0, _, _, _ => .error (.Panic "recursion fuel exhausted")
  | _ + 1, [], children, this => .ok (children, this)
  | fuel + 1, .mk fname ftyp _ fdoc :: rest, children, this => do
    let children ← match ftyp with
      | .Record nested => do
        let d ← recDeclareF fuel nested false
        pure (children ++ d ++ "\n\n")
      | .Union nested => do
        let d ← recDeclareF fuel nested false
        pure (children ++ d ++ "\n\n")
      | .Array nested => do
        let d ← arrDeclareF fuel nested false
        pure (children ++ d ++ "\n\n")
      | _ => pure children
    let this := match fdoc with
      | some doc => this ++ "  --" ++ doc.replace "\n" "\n  --" ++ "\n"
      | none => this
    let tid ← ftyp.vhdl_identifier
    declareRecLoopF fuel rest children
      (this ++ "  " ++ fname ++ " : " ++ tid ++ ";\n")

/-- `declare_arr` (`src/generator/vhdl/impls.rs`): emit
`type <id>_type is array (0 to <width-1>) of <element>`, with the element
record/union/array declared into `children` first; scalar element types
are back-end errors. -/
def declareArrF : Nat → Array → Except Error String
  | 0, _ => .error (.Panic "recursion fuel exhausted")
  | fuel + 1, arr => do
    let aid ← arr.vhdl_identifier
    let this := "type " ++ aid ++ " is array (" ++ toString 0 ++ " to "
      ++ toString (arr.width - 1) ++ ") of "
    let (children, this) ←
      match arr with
      | .mk _ .Bit _ => .error (.BackEndError "Unexpected, Bit in Array")
      | .mk _ .Natural _ => .error (.BackEndError "Unexpected, Natural in Array")
      | .mk _ .Positive _ => .error (.BackEndError "Unexpected, Positive in Array")
      | .mk _ (.BitVec w) _ => do
        let d ← typDeclareF fuel (.BitVec w) false
        pure ("", this ++ d)
      | .mk _ (.Record rec) _ => do
        let d ← declareRecF fuel rec
        let rid ← rec.vhdl_identifier
        pure (d ++ "\n\n", this ++ rid)
      | .mk _ (.Union rec) _ => do
        let d ← declareRecF fuel rec
        let rid ← rec.vhdl_identifier
        pure (d ++ "\n\n", this ++ rid)
      | .mk _ (.Array nested) _ => do
        let d ← arrDeclareF fuel nested false
        let nid ← nested.vhdl_identifier
        pure (d ++ "\n\n", this ++ nid)
    let this := this ++ ";"
    .ok (if children.isEmpty then this else children ++ this)

/-- `impl DeclareType for Record` (`src/generator/vhdl/impls.rs`): a record
with reversed fields is declared as its two split halves, suffixed
`dn`/`up` at the root only; the source unwraps both halves (a `None` half
panics, modelled as `Error.Panic`). -/
def recDeclareF : Nat → Record → Bool → Except Error String
  | 0, _, _ => .error (.Panic "recursion fuel exhausted")
  | fuel + 1, rec, is_root_type =>
    if rec.has_reversed then
      match rec.split with
      | (some dn, some up) => do
        let suffixed_dn := dn.append_name_nested (if is_root_type then "dn" else "")
        let suffixed_up := up.append_name_nested (if is_root_type then "up" else "")
        let a ← declareRecF fuel suffixed_dn
        let b ← declareRecF fuel suffixed_up
        .ok (a ++ "\n\n" ++ b)
      | _ => .error (.Panic "called Option::unwrap on a None value")
    else
      declareRecF fuel rec

/-- `impl DeclareType for Array` (`src/generator/vhdl/impls.rs`): same
split-and-suffix scheme as records, triggered by the element type having
reversed fields. -/
def arrDeclareF : Nat → Array → Bool → Except Error String
  | 0, _, _ => .error (.Panic "recursion fuel exhausted")
  | fuel + 1, arr, is_root_type =>
    if arr.typ.has_reversed then
      match arr.split with
      | (some dn, some up) => do
        let suffixed_dn := dn.append_name_nested (if is_root_type then "dn" else "")
        let suffixed_up := up.append_name_nested (if is_root_type then "up" else "")
        let a ← declareArrF fuel suffixed_dn
        let b ← declareArrF fuel suffixed_up
        .ok (a ++ "\n\n" ++ b)
      | _ => .error (.Panic "called Option::unwrap on a None value")
    else
      declareArrF fuel arr

/-- `impl DeclareType for Type` (`src/generator/vhdl/impls.rs`): scalar
types render to their VHDL names, `BitVec` renders to a
`std_logic_vector` whose width silently becomes 1 when it is 0, and
composites defer to their own `declare`. -/
def typDeclareF : Nat → Typ → Bool → Except Error String
  | 0, _, _ => .error (.Panic "recursion fuel exhausted")
  | _ + 1, .Bit, _ => .ok "std_logic"
  | _ + 1, .Natural, _ => .ok "natural"
  | _ + 1, .Positive, _ => .ok "positive"
  | _ + 1, .BitVec width, _ =>
    .ok ("std_logic_vector(" ++ toString ((if width = 0 then 1 else width) - 1)
      ++ " downto 0)")
  | fuel + 1, .Record rec, is_root_type => recDeclareF fuel rec is_root_type
  | fuel + 1, .Union rec, is_root_type => recDeclareF fuel rec is_root_type
  | fuel + 1, .Array arr, is_root_type => arrDeclareF fuel arr is_root_type
end

/-- `DeclareType for Type` with sufficient fuel. -/
def Typ.declare (t : Typ) (is_root_type : Bool) : Except Error String :=
  typDeclareF ((t.size + 1) * (t.size + 1)) t is_root_type

/-- `DeclareType for Record` with sufficient fuel. -/
def Record.declare (rec : Record) (is_root_type : Bool) :
    Except Error String :=
  recDeclareF ((rec.size + 1) * (rec.size + 1)) rec is_root_type

/-- `DeclareType for Array` with sufficient fuel. -/
def Array.declare (arr : Array) (is_root_type : Bool) :
    Except Error String :=
  arrDeclareF ((arr.size + 1) * (arr.size + 1)) arr is_root_type

/-- `declare_rec` with sufficient fuel. -/
def declare_rec (rec : Record) : Except Error String :=
  declareRecF ((rec.size + 1) * (rec.size + 1)) rec

/-- `impl Declare for Port` (`src/generator/vhdl/impls.rs`):
`<name> : <mode> <type-identifier>`, preceded by its doc comment when
present. -/
def Port.declare (p : Port) : Except Error String := do
  let head := match p.doc with
    | some doc => "--" ++ doc.replace "\n" "\n    --" ++ "\n    "
    | none => ""
  let m ← p.mode.vhdl_identifier
  let tid ← p.typ.vhdl_identifier
  .ok (head ++ p.identifier ++ " : " ++ m ++ " " ++ tid)

/-- The port loop of `impl Declare for Vec<Port>`
(`src/generator/vhdl/impls.rs`): a port whose type has reversed fields is
declared as its two split halves; both halves are unwrapped through
`unreachable!()` arms (modelled as `Error.Panic`); ports are separated by
`;` except after the last one. -/
def declarePortsLoop : List Port → Except Error String
  | [] => .ok ""
  | p :: rest => do
    let body ←
      if p.has_reversed then
        match p.split with
        | (some dn_port, some up_port) => do
          let a ← dn_port.declare
          let b ← up_port.declare
          Except.ok (a ++ ";\n" ++ "    " ++ b)
        | _ => .error (.Panic "internal error: entered unreachable code")
      else p.declare
    let sep := if rest.isEmpty then "\n" else ";\n"
    let tail ← declarePortsLoop rest
    .ok ("    " ++ body ++ sep ++ tail)

/-- `impl Declare for Vec<Port>` (`src/generator/vhdl/impls.rs`): an empty
port list declares nothing, otherwise the ports are wrapped in
`port( … );`. -/
def declarePortList (ports : List Port) : Except Error String :=
  if ports.isEmpty then .ok ""
  else do
    let inner ← declarePortsLoop ports
    .ok ("  port(\n" ++ inner ++ "  );\n")

/-- `Component` (modelled from the spec §3: name, ordered ports, optional
doc; the parameter list is irrelevant to the declaration path and not
modelled). -/
structure Component where
  identifier : String
  ports : List Port
  doc : Option String

/-- `impl Declare for Component` (`src/generator/vhdl/impls.rs`). -/
def Component.declare (c : Component) : Except Error String := do
  let head := match c.doc with
    | some doc => "--" ++ doc.replace "\n" "\n--" ++ "\n"
    | none => ""
  let ps ← declarePortList c.ports
  .ok (head ++ "component " ++ c.identifier ++ "\n" ++ ps ++ "end component;")

/-- `impl Analyze for Component` (`src/generator/vhdl/impls.rs`): collect
only the composite ROOT port types — unlike `Analyze for Type`, this impl
does not recurse into nested types. -/
def Component.list_nested_types (c : Component) : List Typ :=
  c.ports.foldl
    (fun result p =>
      match p.typ with
      | .Record _ => result ++ [p.typ]
      | .Union _ => result ++ [p.typ]
      | .Array _ => result ++ [p.typ]
      | _ => result) []

mutual
/-- `impl Analyze for Type` (`src/generator/vhdl/impls.rs`): pre-order
list of this composite type and all composite types nested below it.
(This recursive impl exists in the source but `Package::declare` uses only
the root-level `Analyze for Component` above.) -/
def Typ.list_nested_types : Typ → List Typ
  | .Record (.mk id fs) => .Record (.mk id fs) :: fieldsNestedTypes fs
  | .Union (.mk id fs) => .Union (.mk id fs) :: fieldsNestedTypes fs
  | .Array (.mk id t w) => .Array (.mk id t w) :: t.list_nested_types
  | _ => []

/-- The field loop of `Analyze for Type`. -/
def fieldsNestedTypes : List Field → List Typ
  | [] => []
  | .mk _ t _ _ :: rest => t.list_nested_types ++ fieldsNestedTypes rest
end

mutual
/-- `uses_std_logic` (local fn of `ListUsings for Package`,
`src/generator/vhdl/impls.rs`). -/
def uses_std_logic : Typ → Bool
  | .Bit => true
  | .Natural => false
  | .Positive => false
  | .BitVec _ => true
  | .Record (.mk _ fs) => fieldsUseStdLogic fs
  | .Union (.mk _ fs) => fieldsUseStdLogic fs
  | .Array (.mk _ t _) => uses_std_logic t

/-- Any field of the list uses `std_logic`. -/
def fieldsUseStdLogic : List Field → Bool
  | [] => false
  | .mk _ t _ _ :: rest => uses_std_logic t || fieldsUseStdLogic rest
end

/-- `Package` (modelled from the spec §3: name and ordered components). -/
structure Package where
  identifier : String
  components : List Component

/-- `impl ListUsings for Package` combined with the blanket
`DeclareUsings` impl (`src/generator/vhdl/impls.rs`,
`src/generator/vhdl/mod.rs`): when any port type of any component uses
`std_logic`, emits the single `ieee` library/use block. (The source
`Usings` map holds at most this one entry for packages, so the
`HashSet`-iteration order of the general impl is immaterial here.) -/
def Package.declare_usings (p : Package) : Except Error String :=
  if p.components.any (fun c => c.ports.any (fun port => uses_std_logic port.typ))
  then .ok "library ieee;\nuse ieee.std_logic_1164.all;\n\n"
  else .ok ""

/-- Association-list lookup standing in for `HashMap::get`. -/
def assocLookup {α : Type} : List (String × α) → String → Option α
  | [], _ => none
  | (k, v) :: rest, key => if k == key then some v else assocLookup rest key

/-- Association-list insert standing in for `HashMap::insert` (replaces an
existing binding, appends a new one). -/
def assocInsert {α : Type} : List (String × α) → String → α → List (String × α)
  | [], key, v => [(key, v)]
  | (k, w) :: rest, key, v =>
    if k == key then (k, v) :: rest else (k, w) :: assocInsert rest key v

/-- The nested-type loop of `impl Declare for Package`
(`src/generator/vhdl/impls.rs`): for each collected type, declare it on
first sight of its rendered identifier, skip it when an identical type
with the same identifier was declared, and fail with the back-end
type-name-conflict error when a different type already claimed the
identifier. The `type_ids` `HashMap` is modelled as an association list
(only `get` and `insert` are used). -/
def declareCompTypes : List Typ → List (String × Typ) → String →
    Except Error (List (String × Typ) × String)
  | [], type_ids, result => .ok (type_ids, result)
  | t :: rest, type_ids, result => do
    let tid ← t.vhdl_identifier
    match assocLookup type_ids tid with
    | none => do
      let d ← t.declare true
      declareCompTypes rest (assocInsert type_ids tid t) (result ++ d ++ "\n\n")
    | some already_defined_type =>
      if t.beq already_defined_type then
        declareCompTypes rest type_ids result
      else
        .error (.BackEndError ("Type name conflict: "
          ++ (already_defined_type.vhdl_identifier.toOption.getD "")))

/-- The component loop of `impl Declare for Package`. -/
def declareComponents : List Component → List (String × Typ) → String →
    Except Error String
  | [], _, result => .ok result
  | c :: rest, type_ids, result => do
    let (type_ids, result) ← declareCompTypes c.list_nested_types type_ids result
    let cd ← c.declare
    declareComponents rest type_ids (result ++ cd ++ "\n\n")

/-- `impl Declare for Package` (`src/generator/vhdl/impls.rs`). -/
def Package.declare (p : Package) : Except Error String := do
  let us ← p.declare_usings
  let body ← declareComponents p.components []
    (us ++ "package " ++ p.identifier ++ " is\n\n")
  .ok (body ++ "end " ++ p.identifier ++ ";")

/-- Whether the character list starts with the given pattern. -/
def listStartsWith : List Char → List Char → Bool
  | _, [] => true
  | [], _ :: _ => false
  | c :: cs, p :: ps => c == p && listStartsWith cs ps

/-- Number of (possibly overlapping) occurrences of a pattern in a
character list. -/
def countOccsList : List Char → List Char → Nat
  | [], _ => 0
  | c :: rest, pat =>
    (if listStartsWith (c :: rest) pat then 1 else 0) + countOccsList rest pat

/-- Number of occurrences of `pat` in `s`. -/
def countOccs (s pat : String) : Nat := countOccsList s.data pat.data

/-- `impl GenerateProject for VHDLBackEnd` (`src/generator/vhdl/mod.rs`),
restricted to what the verified claims exercise. Modelling choices: the
filesystem is an association list from file names to contents
(`std::fs::write` = `assocInsert`); the project is the list of
(library name, package) pairs after the `Packify` step
(`src/generator/common/convert.rs`), which always yields a package per
library; the abstraction level is `Canonical` with the default `"gen"`
suffix, so exactly one file `<library>_pkg.gen.vhd` is written per library
and no wrapper files are produced; directory creation and logging are not
modelled. As in the source, `pak.declare()?` is evaluated before
`std::fs::write` is invoked, so a declaration error aborts with no write
for that library, leaving only the files of the previously processed
libraries. -/
def generatePackages : List (String × Package) → List (String × String) →
    List (String × String) × Option Error
  | [], fs => (fs, none)
  | (libName, pak) :: rest, fs =>
    match pak.declare with
    | .error e => (fs, some e)
    | .ok text =>
      generatePackages rest (assocInsert fs (libName ++ "_pkg.gen.vhd") text)

/-- `ObjectDeclaration` (`src/stdlib/common/architecture/declaration`):
only the identifier takes part in the port-mapping behavior verified here;
the object kind, type and default value are not modelled. -/
structure ObjectDeclaration where
  identifier : String

/-- `Assignment` (`src/stdlib/common/architecture/assignment`): its
contents never influence the port-mapping lookup behavior verified here,
so it is modelled as an abstract token. -/
structure Assignment where
  mk ::

/-- `AssignDeclaration` (`src/stdlib/common/architecture/assignment`):
the result of assigning to an object; contents abstracted as for
`Assignment`. -/
structure AssignDeclaration where
  mk ::

/-- `PortMapping` (`src/stdlib/common/architecture/statement/mod.rs`):
ports and generics are insertion-ordered maps (`IndexMap`), their mappings
are `HashMap`s; both are modelled as association lists (only lookup,
insert and length are used). -/
structure PortMapping where
  label : String
  component_name : String
  ports : List (String × ObjectDeclaration)
  mappings : List (String × AssignDeclaration)
  generics : List (String × ObjectDeclaration)
  generic_mappings : List (String × AssignDeclaration)

/-- `PortMapping::map_port` (`src/stdlib/common/architecture/statement/mod.rs`):
look the identifier up among the ports — failing with
`Error::InvalidArgument("Port {} does not exist on this component")` and
leaving the mapping untouched when absent — then record the result of
`port.assign(assignment)`. The `assign` operation of the assignment
subsystem is passed in as a function parameter; the verified behavior is
independent of it. The Rust `&mut self` mutation is modelled by returning
the updated mapping together with the error, if any. -/
def PortMapping.map_port
    (assign : ObjectDeclaration → Assignment → Except Error AssignDeclaration)
    (pm : PortMapping) (identifier : String) (assignment : Assignment) :
    PortMapping × Option Error :=
  match assocLookup pm.ports identifier with
  | none => (pm, some (.InvalidArgument
      ("Port " ++ identifier ++ " does not exist on this component")))
  | some port =>
    match assign port assignment with
    | .error e => (pm, some e)
    | .ok assigned =>
      ({ pm with mappings := assocInsert pm.mappings identifier assigned }, none)

/-- `PortMapping::map_generic`
(`src/stdlib/common/architecture/statement/mod.rs`): as `map_port`, over
the generics, failing with
`Error::InvalidArgument("Generic {} does not exist on this component")`. -/
def PortMapping.map_generic
    (assign : ObjectDeclaration → Assignment → Except Error AssignDeclaration)
    (pm : PortMapping) (identifier : String) (assignment : Assignment) :
    PortMapping × Option Error :=
  match assocLookup pm.generics identifier with
  | none => (pm, some (.InvalidArgument
      ("Generic " ++ identifier ++ " does not exist on this component")))
  | some generic =>
    match assign generic assignment with
    | .error e => (pm, some e)
    | .ok assigned =>
      ({ pm with
          generic_mappings := assocInsert pm.generic_mappings identifier assigned },
        none)

/-- Whether an error is of the `BackEndError` class. -/
def Error.isBackEndError : Error → Bool
  | .BackEndError _ => true
  | _ => false

mutual
/-- Number of leaf positions of a type: non-composite types (scalars,
bit vectors and arrays, which `Type::split` never enters) count as one
leaf; records and unions count the leaves of their fields. -/
def Typ.leafCount : Typ → Nat
  | .Record (.mk _ fs) => fieldsLeafCount fs
  | .Union (.mk _ fs) => fieldsLeafCount fs
  | _ => 1

/-- Combined leaf count of a field list. -/
def fieldsLeafCount : List Field → Nat
  | [] => 0
  | .mk _ t _ _ :: rest => t.leafCount + fieldsLeafCount rest
end

mutual
/-- Names of the leaf fields reachable below a type, in declaration
order: a field of non-composite type contributes its own name, a field of
record/union type contributes the leaf names below it. -/
def Typ.leafNames : Typ → List String
  | .Record (.mk _ fs) => fieldsLeafNames fs
  | .Union (.mk _ fs) => fieldsLeafNames fs
  | _ => []

/-- Leaf names contributed by one field. -/
def Field.leafNames : Field → List String
  | .mk n t _ _ =>
    match t with
    | .Record r => Typ.leafNames (.Record r)
    | .Union r => Typ.leafNames (.Union r)
    | _ => [n]

/-- Leaf names of a field list. -/
def fieldsLeafNames : List Field → List String
  | [] => []
  | f :: rest => f.leafNames ++ fieldsLeafNames rest
end

/-- Leaf count of an optional type half. -/
def optLeafCount : Option Typ → Nat
  | none => 0
  | some t => t.leafCount

/-- Leaf names of an optional type half. -/
def optLeafNames : Option Typ → List String
  | none => []
  | some t => t.leafNames

/-- Leaf count of an optional record half. -/
def optRecLeafCount : Option Record → Nat
  | none => 0
  | some (.mk _ fs) => fieldsLeafCount fs

/-- Leaf names of an optional record half. -/
def optRecLeafNames : Option Record → List String
  | none => []
  | some (.mk _ fs) => fieldsLeafNames fs

/-- Leaf count of an optional field half. -/
def optFieldLeafCount : Option Field → Nat
  | none => 0
  | some (.mk _ t _ _) => t.leafCount

/-- Leaf names of an optional field half. -/
def optFieldLeafNames : Option Field → List String
  | none => []
  | some f => f.leafNames

mutual
/-- Every record/union reachable below the type (outside arrays, which
`Type::split` never enters) has at least one field. -/
def Typ.productive : Typ → Bool
  | .Record (.mk _ fs) => !fs.isEmpty && fieldsProductive fs
  | .Union (.mk _ fs) => !fs.isEmpty && fieldsProductive fs
  | _ => true

/-- Productivity of all field types in the list. -/
def fieldsProductive : List Field → Bool
  | [] => true
  | .mk _ t _ _ :: rest => t.productive && fieldsProductive rest
end

mutual
/-- No field reachable below the type (outside arrays) carries a doc
string (`Field::split` rebuilds fields with the doc dropped). -/
def Typ.noDocs : Typ → Bool
  | .Record (.mk _ fs) => fieldsNoDocs fs
  | .Union (.mk _ fs) => fieldsNoDocs fs
  | _ => true

/-- Doc-freeness of all fields in the list. -/
def fieldsNoDocs : List Field → Bool
  | [] => true
  | .mk _ t _ d :: rest => d.isNone && t.noDocs && fieldsNoDocs rest
end

/-- Scalar or bit-vector type (no composite or array structure). -/
def Typ.isPrimitive : Typ → Bool
  | .Bit => true
  | .Natural => true
  | .Positive => true
  | .BitVec _ => true
  | _ => false

/-- A flat all-reversed field list: every field is marked reversed, has a
primitive type and no doc. -/
def fieldsFlatReversed : List Field → Bool
  | [] => true
  | .mk _ t r d :: rest => r && t.isPrimitive && d.isNone && fieldsFlatReversed rest

/-- A field with its reversed flag cleared. -/
def Field.clearReversed : Field → Field
  | .mk n t _ d => .mk n t false d

/-- A record with the reversed flags of its fields cleared. -/
def Record.clearReversed : Record → Record
  | .mk id fs => .mk id (fs.map Field.clearReversed)

/-- A mixed-direction record: one forward and one reversed field. -/
def mixedRec : Record := .mk "el" [.mk "f" .Bit false none, .mk "r" .Bit true none]

/-- A port whose type is an `Array` whose element record mixes directions. -/
def c6Port : Port := ⟨"p", .In, .Array (.mk "arr" (.Record mixedRec) 4), none⟩

/-- A port whose type is the mixed-direction record itself. -/
def c6RecPort : Port := ⟨"p", .In, .Record mixedRec, none⟩

/-- A nested record `n` with a single bit field. -/
def nRec : Record := .mk "n" [.mk "z" .Bit false none]

/-- A record distinct from `nRec` that renders to the same identifier
`n_type`. -/
def nRec2 : Record := .mk "n" [.mk "z" (.BitVec 2) false none]

/-- Root record `r1` containing `nRec`. -/
def rootR1 : Typ := .Record (.mk "r1" [.mk "x" (.Record nRec) false none])

/-- Root record `r2` (distinct identifier) containing the same `nRec`. -/
def rootR2 : Typ := .Record (.mk "r2" [.mk "x" (.Record nRec) false none])

/-- A package whose single component has two distinct root port types both
containing the identical nested record `nRec`. -/
def c7Pkg : Package :=
  ⟨"pkg", [⟨"comp", [⟨"p", .In, rootR1, none⟩, ⟨"q", .Out, rootR2, none⟩], none⟩]⟩

/-- A package whose two components share the identical root port type. -/
def c7Pkg2 : Package :=
  ⟨"pkg", [⟨"c1", [⟨"p", .In, rootR1, none⟩], none⟩,
           ⟨"c2", [⟨"q", .Out, rootR1, none⟩], none⟩]⟩

/-- Root record `r3` containing `nRec`. -/
def rootR3 : Typ := .Record (.mk "r3" [.mk "x" (.Record nRec) false none])

/-- Root record `r4` containing `nRec2`, so that its nested record renders
to the same identifier `n_type` as `nRec` while being a different type. -/
def rootR4 : Typ := .Record (.mk "r4" [.mk "x" (.Record nRec2) false none])

/-- A package in which two DISTINCT nested types would render to the same
identifier `n_type`. -/
def c8Pkg : Package :=
  ⟨"pkg", [⟨"comp", [⟨"p", .In, rootR3, none⟩, ⟨"q", .Out, rootR4, none⟩], none⟩]⟩

/-- A package in which two distinct ROOT port types render to the same
identifier `n_type`. -/
def c8RootPkg : Package :=
  ⟨"pkg", [⟨"c1", [⟨"p", .In, .Record nRec, none⟩], none⟩,
           ⟨"c2", [⟨"q", .Out, .Record nRec2, none⟩], none⟩]⟩

/-- An empty port mapping (no ports, no generics). -/
def c9pm : PortMapping := ⟨"label", "comp", [], [], [], []⟩

/-- A record all of whose reachable fields are reversed, but through two
levels of nesting (double reversal). -/
def dblRev : Record :=
  .mk "r" [.mk "a" (.Record (.mk "s" [.mk "b" .Bit true none])) true none]

/-- A record with a single composite field of mixed direction. -/
def nestMixed : Record := .mk "r" [.mk "a" (.Record mixedRec) false none]

section PhysicalLemmas

theorem clog2Aux_eq : ∀ (fuel n : Nat), n ≤ fuel → clog2Aux fuel n = Nat.clog 2 n
  | 0, 0, _ => by simp [clog2Aux]
  | 0, n + 1, h => by omega
  | fuel + 1, 0, _ => by simp [clog2Aux]
  | fuel + 1, 1, _ => by simp [clog2Aux]
  | fuel + 1, n + 2, h => by
    show clog2Aux fuel ((n + 2 + 1) / 2) + 1 = Nat.clog 2 (n + 2)
    rw [clog2Aux_eq fuel ((n + 2 + 1) / 2) (by omega)]
    conv_rhs => rw [Nat.clog_of_two_le (by norm_num) (by omega)]
    have : (n + 2 + 2 - 1) / 2 = (n + 2 + 1) / 2 := by omega
    rw [this]

theorem log2_ceil_eq_clog (v : Positive) : log2_ceil v = Nat.clog 2 v.get :=
  clog2Aux_eq _ _ le_rfl

theorem opt_getD (x : Nat) : (opt x).getD 0 = x := by
  unfold opt; split <;> simp_all

theorem signal_list_bit_count (p : PhysicalStream) :
    (p.signal_list).bit_count = p.bit_count := by
  unfold SignalList.bit_count SignalList.opt_bit_count PhysicalStream.signal_list
    PhysicalStream.bit_count
  simp only [opt_getD]
  split <;> simp_all

end PhysicalLemmas

/-- C1: for every `PhysicalStream`, `bit_count()` equals the sum of
`data_bit_count()`, `last_bit_count()`, `stai_bit_count()`,
`endi_bit_count()`, `strb_bit_count()` and `user_bit_count()`, and the
derived `SignalList` conserves this width; concretely,
`PhysicalStream::try_new([("a",4),("b",8)], 2, 0, 2, [])` yields a signal
list of 24 bits, and with complexity 8 it yields 28 bits. -/
theorem C1_width_conservation :
    (∀ p : PhysicalStream,
      p.bit_count = p.data_bit_count + p.last_bit_count + p.stai_bit_count
        + p.endi_bit_count + p.strb_bit_count + p.user_bit_count
      ∧ (SignalList.fromStream p).bit_count = p.bit_count)
    ∧ (PhysicalStream.try_new [("a", 4), ("b", 8)] 2 0 (Complexity.new_major 2) []).map
        (fun p => (SignalList.fromStream p).bit_count) = .ok 24
    ∧ (PhysicalStream.try_new [("a", 4), ("b", 8)] 2 0 (Complexity.new_major 8) []).map
        (fun p => (SignalList.fromStream p).bit_count) = .ok 28 :=
  ⟨fun p => ⟨rfl, signal_list_bit_count p⟩, by rfl, by rfl⟩

/-- C2: for every `PhysicalStream`, `stai_bit_count()` is `⌈log2 lanes⌉`
when the complexity major is at least 6 and there is more than one lane and
`0` otherwise; `endi_bit_count()` is `⌈log2 lanes⌉` when the complexity
major is at least 5 or the dimensionality is at least 1, with more than one
lane, and `0` otherwise; `strb_bit_count()` is the lane count when the
complexity major is at least 7 or the dimensionality is at least 1, and `0`
otherwise. -/
theorem C2_framing_bit_counts (p : PhysicalStream) :
    (p.stai_bit_count =
      if 6 ≤ p.complexity.major ∧ 1 < p.element_lanes.get
      then Nat.clog 2 p.element_lanes.get else 0)
    ∧ (p.endi_bit_count =
      if (5 ≤ p.complexity.major ∨ 1 ≤ p.dimensionality) ∧ 1 < p.element_lanes.get
      then Nat.clog 2 p.element_lanes.get else 0)
    ∧ (p.strb_bit_count =
      if 7 ≤ p.complexity.major ∨ 1 ≤ p.dimensionality
      then p.element_lanes.get else 0) := by
  refine ⟨?_, ?_, rfl⟩
  · unfold PhysicalStream.stai_bit_count
    simp only [ge_iff_le, gt_iff_lt, log2_ceil_eq_clog]
  · unfold PhysicalStream.endi_bit_count
    simp only [ge_iff_le, gt_iff_lt, log2_ceil_eq_clog]

section ComplexityLemmas

theorem foldl_cmpStep_some (l : List (Nat × Nat)) (o : Ordering) :
    l.foldl cmpStep (some o) = some o := by
  induction l with
  | nil => rfl
  | cons p rest ih => simpa [cmpStep] using ih

theorem foldl_cmpStep_eq_lexFirst (l : List (Nat × Nat)) :
    (l.foldl cmpStep none).getD Ordering.eq = lexFirst l := by
  induction l with
  | nil => rfl
  | cons p rest ih =>
    obtain ⟨i, j⟩ := p
    by_cases h : i = j
    · simpa [lexFirst, cmpStep, h] using ih
    · simp [lexFirst, cmpStep, h, foldl_cmpStep_some]

theorem Complexity.cmp_eq_lexFirst (a b : Complexity) :
    Complexity.cmp a b =
      lexFirst (pairList (padGet a.level) (padGet b.level)
        (max a.level.length b.level.length)) := by
  unfold Complexity.cmp pairList
  rw [foldl_cmpStep_eq_lexFirst]

theorem lexFirst_append_pair (l : List (Nat × Nat)) (x : Nat) :
    lexFirst (l ++ [(x, x)]) = lexFirst l := by
  induction l with
  | nil => simp [lexFirst]
  | cons p rest ih =>
    obtain ⟨i, j⟩ := p
    by_cases h : i = j <;> simp [lexFirst, h, ih]

theorem pairList_succ_right (f g : Nat → Nat) (N : Nat) :
    pairList f g (N + 1) = pairList f g N ++ [(f N, g N)] := by
  unfold pairList
  rw [List.range_succ]
  simp

theorem pairList_succ_left (f g : Nat → Nat) (N : Nat) :
    pairList f g (N + 1) =
      (f 0, g 0) :: pairList (fun i => f (i + 1)) (fun i => g (i + 1)) N := by
  unfold pairList
  rw [List.range_succ_eq_map]
  simp [List.map_map, Function.comp_def, Nat.succ_eq_add_one]

theorem lexFirst_pairList_stable (f g : Nat → Nat) (N M : Nat) (hNM : N ≤ M)
    (hz : ∀ i, N ≤ i → f i = g i) :
    lexFirst (pairList f g M) = lexFirst (pairList f g N) := by
  induction M, hNM using Nat.le_induction with
  | base => rfl
  | succ M hM ih =>
    rw [pairList_succ_right, hz M hM, lexFirst_append_pair, ih]

theorem padGet_eq_zero (l : List Nat) (i : Nat) (h : l.length ≤ i) :
    padGet l i = 0 :=
  List.getD_eq_default l 0 h

theorem Complexity.cmp_stable (a b : Complexity) (N : Nat)
    (h : max a.level.length b.level.length ≤ N) :
    Complexity.cmp a b =
      lexFirst (pairList (padGet a.level) (padGet b.level) N) := by
  rw [Complexity.cmp_eq_lexFirst]
  refine (lexFirst_pairList_stable _ _ _ N h (fun i hi => ?_)).symm
  rw [padGet_eq_zero _ _ (by omega), padGet_eq_zero _ _ (by omega)]

theorem lexFirst_pairList_eq_iff (f g : Nat → Nat) (N : Nat) :
    lexFirst (pairList f g N) = Ordering.eq ↔ ∀ i < N, f i = g i := by
  induction N generalizing f g with
  | zero => simp [pairList, lexFirst]
  | succ N ih =>
    rw [pairList_succ_left]
    simp only [lexFirst]
    by_cases h : f 0 = g 0
    · rw [if_pos h, ih]
      constructor
      · intro hall i hi
        rcases i with _ | i
        · exact h
        · exact hall i (by omega)
      · intro hall i hi
        exact hall (i + 1) (by omega)
    · rw [if_neg h]
      constructor
      · intro hc
        exact absurd (Nat.compare_eq_eq.mp hc) h
      · intro hall
        exact absurd (hall 0 (by omega)) h

theorem nat_compare_swap (m n : Nat) : compare n m = (compare m n).swap := by
  rcases Nat.lt_trichotomy m n with h | h | h
  · rw [Nat.compare_eq_lt.mpr h, Nat.compare_eq_gt.mpr h]
    rfl
  · rw [Nat.compare_eq_eq.mpr h, Nat.compare_eq_eq.mpr h.symm]
    rfl
  · rw [Nat.compare_eq_gt.mpr h, Nat.compare_eq_lt.mpr h]
    rfl

theorem lexFirst_pairList_swap (f g : Nat → Nat) (N : Nat) :
    lexFirst (pairList g f N) = (lexFirst (pairList f g N)).swap := by
  induction N generalizing f g with
  | zero => rfl
  | succ N ih =>
    rw [pairList_succ_left, pairList_succ_left]
    simp only [lexFirst]
    by_cases h : f 0 = g 0
    · rw [if_pos h, if_pos h.symm]
      exact ih _ _
    · rw [if_neg h, if_neg (fun hh => h hh.symm), nat_compare_swap]

theorem lexFirst_pairList_trans (u v w : Nat → Nat) (N : Nat)
    (h1 : lexFirst (pairList u v N) = Ordering.lt)
    (h2 : lexFirst (pairList v w N) = Ordering.lt) :
    lexFirst (pairList u w N) = Ordering.lt := by
  induction N generalizing u v w with
  | zero => simp [pairList, lexFirst] at h1
  | succ N ih =>
    rw [pairList_succ_left] at h1 h2 ⊢
    simp only [lexFirst] at h1 h2 ⊢
    by_cases huv : u 0 = v 0 <;> by_cases hvw : v 0 = w 0
    · rw [if_pos huv] at h1
      rw [if_pos hvw] at h2
      rw [if_pos (huv.trans hvw)]
      exact ih _ _ _ h1 h2
    · rw [if_neg hvw] at h2
      have hlt : v 0 < w 0 := Nat.compare_eq_lt.mp h2
      rw [if_neg (by omega)]
      exact Nat.compare_eq_lt.mpr (by omega)
    · rw [if_neg huv] at h1
      have hlt : u 0 < v 0 := Nat.compare_eq_lt.mp h1
      rw [if_neg (by omega)]
      exact Nat.compare_eq_lt.mpr (by omega)
    · rw [if_neg huv] at h1
      rw [if_neg hvw] at h2
      have hlt1 : u 0 < v 0 := Nat.compare_eq_lt.mp h1
      have hlt2 : v 0 < w 0 := Nat.compare_eq_lt.mp h2
      rw [if_neg (by omega)]
      exact Nat.compare_eq_lt.mpr (by omega)

theorem Complexity.eq_iff (a b : Complexity) :
    Complexity.eq a b = true ↔
      ∀ i < max a.level.length b.level.length,
        padGet a.level i = padGet b.level i := by
  unfold Complexity.eq
  simp [List.all_eq_true, List.mem_range]

theorem padGet_append_zeros (l : List Nat) (k i : Nat) :
    padGet (l ++ List.replicate k 0) i = padGet l i := by
  unfold padGet
  rcases Nat.lt_or_ge i l.length with h | h
  · exact List.getD_append l _ 0 i h
  · rw [List.getD_eq_default l 0 h, List.getD_append_right l _ 0 i h]
    rcases Nat.lt_or_ge (i - l.length) k with h2 | h2
    · unfold List.getD
      simp [List.getElem?_replicate, h2]
    · exact List.getD_eq_default _ _ (by simpa using h2)

end ComplexityLemmas

/-- C3: equality and ordering on `Complexity` are lexicographic with missing
trailing components treated as zero: a level vector padded with trailing
zeros is equal to the unpadded one; `Complexity::new_major(3)` is less than
`Complexity::new(vec![3,1])`; `cmp` returns `Equal` exactly on `eq`-equal
values, reverses under swapping its arguments, and is transitive, so the
order is total and consistent with this equality. -/
theorem C3_complexity_order :
    (∀ (c : Complexity) (k : Nat),
      Complexity.eq c (c.padZeros k) = true
        ∧ Complexity.eq (c.padZeros k) c = true)
    ∧ (Complexity.new [3, 1]).map
        (fun c => Complexity.cmp (Complexity.new_major 3) c) = .ok .lt
    ∧ (∀ a b : Complexity,
        Complexity.cmp a b = Ordering.eq ↔ Complexity.eq a b = true)
    ∧ (∀ a b : Complexity, Complexity.cmp b a = (Complexity.cmp a b).swap)
    ∧ (∀ a b c : Complexity,
        Complexity.cmp a b = Ordering.lt → Complexity.cmp b c = Ordering.lt →
          Complexity.cmp a c = Ordering.lt) := by
  have hconsist : ∀ a b : Complexity,
      Complexity.cmp a b = Ordering.eq ↔ Complexity.eq a b = true := by
    intro a b
    rw [Complexity.cmp_eq_lexFirst, lexFirst_pairList_eq_iff, Complexity.eq_iff]
  refine ⟨?_, by rfl, hconsist, ?_, ?_⟩
  · intro c k
    have h1 : Complexity.eq c (c.padZeros k) = true := by
      rw [← hconsist, Complexity.cmp_eq_lexFirst, lexFirst_pairList_eq_iff]
      intro i _
      show padGet c.level i = padGet (c.padZeros k).level i
      rw [Complexity.padZeros, padGet_append_zeros]
    have h2 : Complexity.eq (c.padZeros k) c = true := by
      rw [← hconsist, Complexity.cmp_eq_lexFirst, lexFirst_pairList_eq_iff]
      intro i _
      show padGet (c.padZeros k).level i = padGet c.level i
      rw [Complexity.padZeros, padGet_append_zeros]
    exact ⟨h1, h2⟩
  · intro a b
    rw [Complexity.cmp_eq_lexFirst, Complexity.cmp_eq_lexFirst,
      lexFirst_pairList_swap, Nat.max_comm]
  · intro a b c h1 h2
    set N := max (max a.level.length b.level.length)
      (max (max b.level.length c.level.length)
        (max a.level.length c.level.length)) with hN
    rw [Complexity.cmp_stable a b N (by omega)] at h1
    rw [Complexity.cmp_stable b c N (by omega)] at h2
    rw [Complexity.cmp_stable a c N (by omega)]
    exact lexFirst_pairList_trans _ _ _ N h1 h2

/-- C3 witness: the transitivity component of `C3_complexity_order` applied
at the concrete complexity levels 2, 3 and 5. -/
theorem C3_complexity_order_witness :
    Complexity.cmp (Complexity.new_major 2) (Complexity.new_major 5) =
      Ordering.lt :=
  C3_complexity_order.2.2.2.2 (Complexity.new_major 2) (Complexity.new_major 3)
    (Complexity.new_major 5) (by rfl) (by rfl)

section SignalListLemmas

theorem opt_vec_origin (name : String) (o : Origin) (w : Option NonNegative)
    (s : Signal) (h : Signal.opt_vec name o w = some s) : s.origin = o := by
  cases w with
  | none => simp [Signal.opt_vec] at h
  | some x =>
    simp [Signal.opt_vec] at h
    rw [← h]

theorem filterMap_eight (a b : Signal) (o1 o2 o3 o4 o5 o6 : Option Signal) :
    ([some a, some b, o1, o2, o3, o4, o5, o6]).filterMap id =
      a :: b :: (o1.toList ++ o2.toList ++ o3.toList ++ o4.toList
        ++ o5.toList ++ o6.toList) := by
  cases o1 <;> cases o2 <;> cases o3 <;> cases o4 <;> cases o5 <;> cases o6 <;>
    rfl

theorem opt_vec_opt_toList (name : String) (o : Origin) (x : NonNegative) :
    (Signal.opt_vec name o (opt x)).toList =
      if x = 0 then [] else [⟨name, o, .Vector x⟩] := by
  unfold Signal.opt_vec opt
  split <;> rfl

theorem opt_vec_opt_isSome (name : String) (o : Origin) (x : NonNegative) :
    (Signal.opt_vec name o (opt x)).isSome ↔ x ≠ 0 := by
  unfold Signal.opt_vec opt
  split <;> simp_all

end SignalListLemmas

/-- C4: for every `PhysicalStream`, each of the six optional signals
`data`/`last`/`stai`/`endi`/`strb`/`user` is present in the `SignalList`
exactly when the corresponding bit-count function is non-zero; `valid` and
`ready` are always present with scalar width and origins `Source` and
`Sink`; every other present signal has origin `Source`; and iterating the
signal list yields `valid, ready, data, last, stai, endi, strb, user` in
this order with absent signals omitted. -/
theorem C4_signal_list_shape (p : PhysicalStream) :
    ((p.signal_list).valid = ⟨"valid", .Source, .Scalar⟩
      ∧ (p.signal_list).ready = ⟨"ready", .Sink, .Scalar⟩)
    ∧ ((p.signal_list).dataSignal.isSome ↔ p.data_bit_count ≠ 0)
    ∧ ((p.signal_list).lastSignal.isSome ↔ p.last_bit_count ≠ 0)
    ∧ ((p.signal_list).staiSignal.isSome ↔ p.stai_bit_count ≠ 0)
    ∧ ((p.signal_list).endiSignal.isSome ↔ p.endi_bit_count ≠ 0)
    ∧ ((p.signal_list).strbSignal.isSome ↔ p.strb_bit_count ≠ 0)
    ∧ ((p.signal_list).userSignal.isSome ↔ p.user_bit_count ≠ 0)
    ∧ (∀ s ∈ (p.signal_list).toList,
        s = (p.signal_list).ready ∨ s.origin = .Source)
    ∧ (p.signal_list).toList =
        ⟨"valid", .Source, .Scalar⟩ :: ⟨"ready", .Sink, .Scalar⟩ ::
        ((if p.data_bit_count = 0 then []
            else [⟨"data", .Source, .Vector p.data_bit_count⟩])
          ++ (if p.last_bit_count = 0 then []
            else [⟨"last", .Source, .Vector p.last_bit_count⟩])
          ++ (if p.stai_bit_count = 0 then []
            else [⟨"stai", .Source, .Vector p.stai_bit_count⟩])
          ++ (if p.endi_bit_count = 0 then []
            else [⟨"endi", .Source, .Vector p.endi_bit_count⟩])
          ++ (if p.strb_bit_count = 0 then []
            else [⟨"strb", .Source, .Vector p.strb_bit_count⟩])
          ++ (if p.user_bit_count = 0 then []
            else [⟨"user", .Source, .Vector p.user_bit_count⟩])) := by
  refine ⟨⟨rfl, rfl⟩, opt_vec_opt_isSome _ _ _, opt_vec_opt_isSome _ _ _,
    opt_vec_opt_isSome _ _ _, opt_vec_opt_isSome _ _ _, opt_vec_opt_isSome _ _ _,
    opt_vec_opt_isSome _ _ _, ?_, ?_⟩
  · intro s hs
    unfold SignalList.toList at hs
    simp only [List.mem_filterMap, id, List.mem_cons, List.mem_singleton,
      List.not_mem_nil, or_false] at hs
    obtain ⟨o, ho, hso⟩ := hs
    rcases ho with h | h | h | h | h | h | h | h
    · right
      rw [h] at hso
      cases hso
      rfl
    · left
      rw [h] at hso
      cases hso
      rfl
    all_goals
      right
      rw [h] at hso
      exact opt_vec_origin _ _ _ _ hso
  · show (SignalList.toList _) = _
    rw [SignalList.toList, filterMap_eight]
    unfold SignalList.dataSignal SignalList.lastSignal SignalList.staiSignal
      SignalList.endiSignal SignalList.strbSignal SignalList.userSignal
      PhysicalStream.signal_list
    simp only [opt_vec_opt_toList]
    rfl

/-- C6: the claim states that every `Record`, `Array`, `Port` or `Field`
mixing forward and reversed reachable fields splits into two `Some` halves,
in particular a `Port` whose type is an `Array` whose element record
contains reversed fields, so that the `unreachable!()` arms of
`Vec<Port>::declare` are never executed. The code refutes this:
`Type::split` sends `Array` through the catch-all arm
`(Some(self), None)`, so for the concrete array port `c6Port` (which has
reversed fields) the up half is `None` and the port-list declaration
reaches the `unreachable!()` arm — while a record-typed mixed port does
split into two `Some` halves. -/
theorem C6_array_port_split_unreachable :
    c6Port.has_reversed = true
    ∧ (c6Port.split).1.isSome = true
    ∧ (c6Port.split).2 = none
    ∧ declarePortList [c6Port] =
        .error (.Panic "internal error: entered unreachable code")
    ∧ (c6RecPort.split).1.isSome = true
    ∧ (c6RecPort.split).2.isSome = true :=
  ⟨rfl, rfl, rfl, rfl, rfl, rfl⟩

/-- C7: the claim states that every nested composite type reachable from
the components' port types is declared at most once per rendered
identifier. The code refutes this: `Package::declare` deduplicates only
the ROOT port types collected by `Analyze for Component`, while
`declare_rec` re-emits nested types inline under every root — in `c7Pkg`
the identical nested record `n` sits under the two distinct roots
`r1`/`r2` and `type n_type is record` is emitted twice; by contrast the
identical root type shared by two components in `c7Pkg2` is declared
exactly once. -/
theorem C7_nested_type_declared_twice :
    (c7Pkg.declare).map (fun s => countOccs s "type n_type is record") = .ok 2
    ∧ (c7Pkg2.declare).map (fun s =>
        (countOccs s "type r1_type is record",
         countOccs s "type n_type is record")) = .ok (1, 1) :=
  ⟨by rfl, by rfl⟩

/-- C8: the claim states that two distinct types rendering to the same
identifier within one package always fail with the back-end
type-name-conflict error and produce no output file. The code refutes the
first part for nested types: in `c8Pkg` the distinct records `nRec`/`nRec2`
both render to `n_type`, yet declaration succeeds and emits both
conflicting declarations. At ROOT level the claim's behavior holds: the
root-level conflict in `c8RootPkg` fails with
`BackEndError("Type name conflict: n_type")`, and generation then writes
no file for that package. -/
theorem C8_conflict_detection :
    (c8Pkg.declare).map (fun s => countOccs s "type n_type is record") = .ok 2
    ∧ (c8Pkg.declare).isOk = true
    ∧ c8RootPkg.declare = .error (.BackEndError "Type name conflict: n_type")
    ∧ generatePackages [("lib", c8RootPkg)] [] =
        ([], some (.BackEndError "Type name conflict: n_type")) :=
  ⟨by rfl, by rfl, by rfl, by rfl⟩

/-- C9 counterexample: mapping the non-existent port `x` on an empty
`PortMapping` fails with `Error::InvalidArgument`, which is not of the
`BackEndError` class, refuting the claim that unknown port/generic
references fail with `BackEndError`. -/
theorem C9_counterexample :
    (PortMapping.map_port (fun _ _ => .ok .mk) c9pm "x" .mk).2 =
      some (.InvalidArgument "Port x does not exist on this component")
    ∧ Error.isBackEndError
        (.InvalidArgument "Port x does not exist on this component") = false :=
  ⟨rfl, rfl⟩

/-- C9 (amended): for every `PortMapping` and every identifier that does
not name one of its ports (resp. generics), `map_port` (resp.
`map_generic`) fails with the `InvalidArgument` error naming the missing
port/generic and leaves the existing mappings (indeed the whole mapping
state) unchanged, for every behavior of the underlying `assign`
operation. -/
theorem C9_map_missing_is_invalid_argument
    (assign : ObjectDeclaration → Assignment → Except Error AssignDeclaration)
    (pm : PortMapping) (identifier : String) (a : Assignment) :
    (assocLookup pm.ports identifier = none →
      PortMapping.map_port assign pm identifier a =
        (pm, some (.InvalidArgument
          ("Port " ++ identifier ++ " does not exist on this component"))))
    ∧ (assocLookup pm.generics identifier = none →
      PortMapping.map_generic assign pm identifier a =
        (pm, some (.InvalidArgument
          ("Generic " ++ identifier ++ " does not exist on this component")))) := by
  constructor
  · intro h
    unfold PortMapping.map_port
    rw [h]
  · intro h
    unfold PortMapping.map_generic
    rw [h]

/-- C9 witness: the amended theorem applied to the empty port mapping and
the identifier `x`. -/
theorem C9_map_missing_is_invalid_argument_witness :
    PortMapping.map_port (fun _ _ => .ok .mk) c9pm "x" .mk =
      (c9pm, some (.InvalidArgument "Port x does not exist on this component"))
    ∧ PortMapping.map_generic (fun _ _ => .ok .mk) c9pm "x" .mk =
      (c9pm, some (.InvalidArgument "Generic x does not exist on this component")) :=
  ⟨(C9_map_missing_is_invalid_argument (fun _ _ => .ok .mk) c9pm "x" .mk).1 rfl,
   (C9_map_missing_is_invalid_argument (fun _ _ => .ok .mk) c9pm "x" .mk).2 rfl⟩

/-- C10: `DeclareType for Type` renders `BitVec{width: 0}` without an
error, silently substituting width 1: the result is
`std_logic_vector(0 downto 0)`, identical to the rendering of
`BitVec{width: 1}` (both as a root type and as a nested type). -/
theorem C10_bitvec_zero_width :
    Typ.declare (.BitVec 0) true = .ok "std_logic_vector(0 downto 0)"
    ∧ Typ.declare (.BitVec 0) true = Typ.declare (.BitVec 1) true
    ∧ Typ.declare (.BitVec 0) false = Typ.declare (.BitVec 1) false :=
  ⟨rfl, rfl, rfl⟩

section SplitLemmas

mutual

theorem typ_split_fwd : (t : Typ) → t.productive = true → t.noDocs = true →
    t.has_reversed = false → t.split = (some t, none)
  | .Bit, _, _, _ => rfl
  | .Natural, _, _, _ => rfl
  | .Positive, _, _, _ => rfl
  | .BitVec _, _, _, _ => rfl
  | .Array _, _, _, _ => rfl
  | .Record (.mk id fs), hp, hd, hr => by
    simp only [Typ.productive, Bool.and_eq_true, Bool.not_eq_true'] at hp
    simp only [Typ.noDocs] at hd
    simp only [Typ.has_reversed, Record.has_reversed] at hr
    have h := fields_split_fwd fs hp.2 hd hr
    simp [Typ.split, Record.split, h, hp.1]
  | .Union (.mk id fs), hp, hd, hr => by
    simp only [Typ.productive, Bool.and_eq_true, Bool.not_eq_true'] at hp
    simp only [Typ.noDocs] at hd
    simp only [Typ.has_reversed, Record.has_reversed] at hr
    have h := fields_split_fwd fs hp.2 hd hr
    simp [Typ.split, Record.split, h, hp.1]

theorem fields_split_fwd : (fs : List Field) → fieldsProductive fs = true →
    fieldsNoDocs fs = true → fieldsHaveReversed fs = false →
    splitFields fs = (fs, [])
  | [], _, _, _ => rfl
  | .mk n t r d :: rest, hp, hd, hr => by
    simp only [fieldsProductive, Bool.and_eq_true] at hp
    simp only [fieldsNoDocs, Bool.and_eq_true] at hd
    simp only [fieldsHaveReversed, Field.has_reversed, Bool.or_eq_false_iff] at hr
    have ht := typ_split_fwd t hp.1 hd.1.2 hr.1.2
    have hrest := fields_split_fwd rest hp.2 hd.2 hr.2
    have hdn : d = none := Option.isNone_iff_eq_none.mp hd.1.1
    subst hdn
    have hrF : r = false := hr.1.1
    subst hrF
    simp [splitFields, Field.split, ht, hrest]

end

theorem prim_split (t : Typ) (h : t.isPrimitive = true) :
    t.split = (some t, none) := by
  cases t <;> first | rfl | simp [Typ.isPrimitive] at h

theorem field_split_flat (f : Field) (hr : f.is_reversed = true)
    (hp : f.typ.isPrimitive = true) (hd : f.doc = none) :
    f.split = (none, some f.clearReversed) := by
  obtain ⟨n, t, r, d⟩ := f
  simp only [Field.is_reversed] at hr
  simp only [Field.typ] at hp
  simp only [Field.doc] at hd
  subst hr
  subst hd
  simp [Field.split, prim_split t hp, Field.clearReversed]

theorem fields_split_flat : (fs : List Field) → fieldsFlatReversed fs = true →
    splitFields fs = ([], fs.map Field.clearReversed)
  | [], _ => rfl
  | .mk n t r d :: rest, h => by
    simp only [fieldsFlatReversed, Bool.and_eq_true] at h
    have h1 := field_split_flat (.mk n t r d) (by simp [Field.is_reversed, h.1.1.1])
      (by simp [Field.typ, h.1.1.2]) (by
        simp [Field.doc]
        exact Option.isNone_iff_eq_none.mp h.1.2)
    have h2 := fields_split_flat rest h.2
    simp [splitFields, h1, h2]

theorem rec_split_flat (r : Record) (hne : r.fields.isEmpty = false)
    (h : fieldsFlatReversed r.fields = true) :
    r.split = (none, some r.clearReversed) := by
  obtain ⟨id, fs⟩ := r
  simp only [Record.fields] at hne h
  cases fs with
  | nil => simp at hne
  | cons f rest =>
    have := fields_split_flat (f :: rest) h
    simp [Record.split, this, Record.clearReversed]

theorem fieldsLeafNames_append (l1 l2 : List Field) :
    fieldsLeafNames (l1 ++ l2) = fieldsLeafNames l1 ++ fieldsLeafNames l2 := by
  induction l1 with
  | nil => simp [fieldsLeafNames]
  | cons f rest ih => simp [fieldsLeafNames, ih]

mutual

theorem typ_split_names : (t : Typ) → (s : String) →
    (optLeafNames (t.split).1).count s + (optLeafNames (t.split).2).count s
      = (t.leafNames).count s
  | .Bit, s => by simp [Typ.split, optLeafNames]
  | .Natural, s => by simp [Typ.split, optLeafNames]
  | .Positive, s => by simp [Typ.split, optLeafNames]
  | .BitVec _, s => by simp [Typ.split, optLeafNames]
  | .Array _, s => by simp [Typ.split, optLeafNames]
  | .Record (.mk id fs), s => by
    have h := fields_split_names fs s
    rcases hs : splitFields fs with ⟨ds, us⟩
    rw [hs] at h
    simp only [Typ.split, Record.split, hs, Typ.leafNames]
    cases ds <;> cases us <;>
      simp_all [optLeafNames, Typ.leafNames, fieldsLeafNames]
  | .Union (.mk id fs), s => by
    have h := fields_split_names fs s
    rcases hs : splitFields fs with ⟨ds, us⟩
    rw [hs] at h
    simp only [Typ.split, Record.split, hs, Typ.leafNames]
    cases ds <;> cases us <;>
      simp_all [optLeafNames, Typ.leafNames, fieldsLeafNames]

theorem field_split_names : (f : Field) → (s : String) →
    (optFieldLeafNames (f.split).1).count s
      + (optFieldLeafNames (f.split).2).count s = (f.leafNames).count s
  | .mk n .Bit r d, s => by
    cases r <;> simp [Field.split, Typ.split, optFieldLeafNames, Field.leafNames]
  | .mk n .Natural r d, s => by
    cases r <;> simp [Field.split, Typ.split, optFieldLeafNames, Field.leafNames]
  | .mk n .Positive r d, s => by
    cases r <;> simp [Field.split, Typ.split, optFieldLeafNames, Field.leafNames]
  | .mk n (.BitVec w) r d, s => by
    cases r <;> simp [Field.split, Typ.split, optFieldLeafNames, Field.leafNames]
  | .mk n (.Array a) r d, s => by
    cases r <;> simp [Field.split, Typ.split, optFieldLeafNames, Field.leafNames]
  | .mk n (.Record (.mk rid rfs)) r d, s => by
    have h := fields_split_names rfs s
    rcases hs : splitFields rfs with ⟨ds, us⟩
    rw [hs] at h
    simp only [Field.split, Typ.split, Record.split, hs, Field.leafNames,
      Typ.leafNames]
    cases ds <;> cases us <;> cases r <;>
      simp_all [optFieldLeafNames, Field.leafNames, Typ.leafNames,
        fieldsLeafNames] <;> omega
  | .mk n (.Union (.mk rid rfs)) r d, s => by
    have h := fields_split_names rfs s
    rcases hs : splitFields rfs with ⟨ds, us⟩
    rw [hs] at h
    simp only [Field.split, Typ.split, Record.split, hs, Field.leafNames,
      Typ.leafNames]
    cases ds <;> cases us <;> cases r <;>
      simp_all [optFieldLeafNames, Field.leafNames, Typ.leafNames,
        fieldsLeafNames] <;> omega

theorem fields_split_names : (fs : List Field) → (s : String) →
    (fieldsLeafNames (splitFields fs).1).count s
      + (fieldsLeafNames (splitFields fs).2).count s
      = (fieldsLeafNames fs).count s
  | [], s => by simp [splitFields, fieldsLeafNames]
  | f :: rest, s => by
    have h1 := field_split_names f s
    have h2 := fields_split_names rest s
    rcases hf : f.split with ⟨df, uf⟩
    rcases hr : splitFields rest with ⟨ds, us⟩
    rw [hf] at h1
    rw [hr] at h2
    simp only [splitFields, hf, hr, fieldsLeafNames]
    cases df <;> cases uf <;>
      simp_all [fieldsLeafNames_append, optFieldLeafNames, fieldsLeafNames,
        Option.toList, List.count_append] <;> omega

end

end SplitLemmas

/-- C5 counterexample: the claim fails as stated on the code. (i) The empty
record has no reachable fields at all (so none is reversed), yet both split
halves are `None` rather than `(Some(original), None)`. (ii) A forward
field carrying a doc string splits into a field with the doc dropped, not
into the original. (iii) In `dblRev` every reachable field is marked
reversed (`a` and, below it, `b`), yet the double reversal lands the
content in the DOWN half: split is `(Some(cleared), None)`, not
`(None, Some(cleared))`. (iv) In `nestMixed` the composite field `a`
appears in BOTH halves, so "each field appears in exactly one half" only
holds for leaf fields. -/
theorem C5_counterexample :
    (Typ.Record (.mk "r" [])).has_reversed = false
    ∧ (Typ.Record (.mk "r" [])).split = (none, none)
    ∧ ¬((Field.mk "a" .Bit false (some "d")).split =
        (some (Field.mk "a" .Bit false (some "d")), none))
    ∧ Record.split dblRev =
        (some (.mk "r" [.mk "a" (.Record (.mk "s" [.mk "b" .Bit false none]))
          false none]), none)
    ∧ Record.split nestMixed =
        (some (.mk "r" [.mk "a" (.Record (.mk "el" [.mk "f" .Bit false none]))
          false none]),
         some (.mk "r" [.mk "a" (.Record (.mk "el" [.mk "r" .Bit false none]))
          false none])) := by
  refine ⟨rfl, rfl, ?_, by rfl, by rfl⟩
  intro h
  simp [Field.split, Typ.split] at h

/-- C5 (amended): for composites all of whose nested records/unions are
non-empty and doc-free — (1) with no reachable reversed field, `split()`
returns `(Some(original), None)` (for a `Type`, a `Record` and a `Field`);
(2) a flat record all of whose fields are reversed and primitive-typed
(resp. a reversed primitive-typed field) splits as
`(None, Some(original with reversed flags cleared))`; and (3) in every
case, each leaf field of the original appears in exactly one of the two
halves: the leaf names of the two halves together are a permutation of the
original leaf names. -/
theorem C5_split_directional_projections :
    (∀ t : Typ, t.productive = true → t.noDocs = true →
      t.has_reversed = false → t.split = (some t, none))
    ∧ (∀ r : Record, r.fields.isEmpty = false →
        fieldsProductive r.fields = true → fieldsNoDocs r.fields = true →
        r.has_reversed = false → r.split = (some r, none))
    ∧ (∀ f : Field, f.is_reversed = false → f.doc = none →
        f.typ.productive = true → f.typ.noDocs = true →
        f.typ.has_reversed = false → f.split = (some f, none))
    ∧ (∀ r : Record, r.fields.isEmpty = false →
        fieldsFlatReversed r.fields = true →
        r.split = (none, some r.clearReversed))
    ∧ (∀ f : Field, f.is_reversed = true → f.typ.isPrimitive = true →
        f.doc = none → f.split = (none, some f.clearReversed))
    ∧ (∀ t : Typ,
        (optLeafNames (t.split).1 ++ optLeafNames (t.split).2).Perm
          t.leafNames)
    ∧ (∀ r : Record,
        (optRecLeafNames (r.split).1 ++ optRecLeafNames (r.split).2).Perm
          (fieldsLeafNames r.fields))
    ∧ (∀ f : Field,
        (optFieldLeafNames (f.split).1 ++ optFieldLeafNames (f.split).2).Perm
          f.leafNames) := by
  refine ⟨typ_split_fwd, ?_, ?_, rec_split_flat, field_split_flat, ?_, ?_, ?_⟩
  · intro r hne hp hd hr
    obtain ⟨id, fs⟩ := r
    simp only [Record.fields] at hne hp hd
    simp only [Record.has_reversed] at hr
    have h := fields_split_fwd fs hp hd hr
    simp [Record.split, h, hne]
  · intro f hrF hd hp hnd hr
    obtain ⟨n, t, r, d⟩ := f
    simp only [Field.is_reversed] at hrF
    simp only [Field.doc] at hd
    simp only [Field.typ] at hp hnd hr
    subst hrF
    subst hd
    have ht := typ_split_fwd t hp hnd hr
    simp [Field.split, ht]
  · intro t
    refine List.perm_iff_count.mpr (fun s => ?_)
    rw [List.count_append]
    exact typ_split_names t s
  · intro r
    refine List.perm_iff_count.mpr (fun s => ?_)
    rw [List.count_append]
    obtain ⟨id, fs⟩ := r
    have h := fields_split_names fs s
    rcases hs : splitFields fs with ⟨ds, us⟩
    rw [hs] at h
    simp only [Record.split, Record.fields, hs]
    cases ds <;> cases us <;>
      simp_all [optRecLeafNames, fieldsLeafNames]
  · intro f
    refine List.perm_iff_count.mpr (fun s => ?_)
    rw [List.count_append]
    exact field_split_names f s

/-- C5 witness: the amended theorem applied to a concrete forward record
type, a concrete flat all-reversed record, and the mixed record `nestMixed`
for the leaf-distribution part. -/
theorem C5_split_directional_projections_witness :
    (Typ.Record (.mk "r" [.mk "a" .Bit false none])).split =
      (some (.Record (.mk "r" [.mk "a" .Bit false none])), none)
    ∧ Record.split (.mk "r" [.mk "a" .Bit true none]) =
      (none, some (.mk "r" [.mk "a" .Bit false none]))
    ∧ (optRecLeafNames (Record.split nestMixed).1
        ++ optRecLeafNames (Record.split nestMixed).2).Perm
        (fieldsLeafNames nestMixed.fields) :=
  ⟨C5_split_directional_projections.1
      (.Record (.mk "r" [.mk "a" .Bit false none])) (by rfl) (by rfl) (by rfl),
   C5_split_directional_projections.2.2.2.1
      (.mk "r" [.mk "a" .Bit true none]) (by rfl) (by rfl),
   C5_split_directional_projections.2.2.2.2.2.2.1 nestMixed⟩

end Tydi
